import Mathlib

/-!
Verification development for the TTS personalization pipeline
(`feature_extractor.py`, `personalization_engine.py`).

Numeric values are modelled over `ℚ` (the Python code computes with
IEEE doubles; all constants and operations under study are exact
rational arithmetic, and the claims of the spec are about the algebraic
formulas, so `ℚ` is the faithful idealization).  Fallible Python code
(`np.percentile` raising on empty input, functions returning `None`)
is modelled with `Option`.
-/

namespace TTS

/-- Modelled from `np.percentile(energy, threshold_percentile)` with the numpy
default linear-interpolation method: sort ascending, take virtual position
`p/100 * (n-1)`, and linearly interpolate between the two neighbouring order
statistics.  On an empty array numpy raises
`IndexError: cannot do a non-empty take from an empty axes.`, modelled as
`none`. -/
def percentile (xs : List ℚ) (p : ℚ) : Option ℚ :=
  if xs.length = 0 then none
  else
    let sorted := xs.insertionSort (· ≤ ·)
    let pos := p * ((xs.length : ℚ) - 1) / 100
    let lo := (⌊pos⌋).toNat
    let g := pos - ((⌊pos⌋ : ℤ) : ℚ)
    some (sorted.getD lo 0 + g * (sorted.getD (lo + 1) 0 - sorted.getD lo 0))

/-- Modelled from `librosa.frames_to_time(i, sr=self.sr, hop_length=512)`:
frame index `i` maps to time `i * hop_length / sr` with the hop length 512
hardcoded in `FeatureExtractor.extract_pauses`. -/
def frames_to_time (sr : ℚ) (i : ℕ) : ℚ :=
  (i : ℚ) * 512 / sr

/-- The frame-scanning loop of `FeatureExtractor.extract_pauses` (lines
107-121): state `(i, in_pause, pause_start)`; a pause opens on the first
paused frame after a non-paused state (remembering `frame_times[i]`), and on
the first non-paused frame after a paused run the duration
`frame_times[i] - pause_start` is recorded.  A pause still open when the
list ends is never recorded. -/
def pause_scan (time : ℕ → ℚ) : List Bool → ℕ → Bool → ℚ → List ℚ
  | [], _, _, _ => []
  | is_paused :: rest, i, in_pause, pause_start =>
    if is_paused && !in_pause then
      pause_scan time rest (i + 1) true (time i)
    else if !is_paused && in_pause then
      (time i - pause_start) :: pause_scan time rest (i + 1) false pause_start
    else
      pause_scan time rest (i + 1) in_pause pause_start

/-- Modelled from `FeatureExtractor.extract_pauses` (the unused `audio`
argument is dropped): threshold is the `threshold_percentile`-th percentile
of the energies, frame `i` is paused iff `energy[i] < threshold` (strict),
and the scan loop collects the closed pause durations.  The exception numpy
raises on an empty energy array propagates as `none`. -/
def extract_pauses (sr : ℚ) (energy : List ℚ) (threshold_percentile : ℚ) :
    Option (List ℚ) :=
  match percentile energy threshold_percentile with
  | none => none
  | some threshold =>
      let pause_frames := energy.map (fun e => decide (e < threshold))
      some (pause_scan (frames_to_time sr) pause_frames 0 false 0)

/-- Number of pauses the scan loop closes: one per `true → false` transition
of the paused-flag sequence, threading the `in_pause` state (which after any
processed frame equals the flag of that frame). -/
def close_count : Bool → List Bool → ℕ
  | _, [] => 0
  | in_pause, b :: rest => (if in_pause && !b then 1 else 0) + close_count b rest

lemma pause_scan_nonneg (time : ℕ → ℚ)
    (hmono : ∀ i j, i ≤ j → time i ≤ time j) :
    ∀ (flags : List Bool) (i : ℕ) (in_pause : Bool) (pause_start : ℚ),
      pause_start ≤ time i →
      ∀ d ∈ pause_scan time flags i in_pause pause_start, 0 ≤ d := by
  intro flags
  induction flags with
  | nil =>
    intro i ip ps h d hd
    simp [pause_scan] at hd
  | cons b rest ih =>
    intro i ip ps h d hd
    have hstep : time i ≤ time (i + 1) := hmono i (i + 1) (Nat.le_succ i)
    cases b <;> cases ip <;> simp only [pause_scan, Bool.not_true, Bool.not_false,
      Bool.and_true, Bool.and_false, Bool.true_and, Bool.false_and,
      if_true, if_false, Bool.false_eq_true, ite_false, ite_true,
      List.mem_cons] at hd
    · exact ih (i + 1) false ps (le_trans h hstep) d hd
    · rcases hd with hd | hd
      · subst hd; linarith
      · exact ih (i + 1) false ps (le_trans h hstep) d hd
    · exact ih (i + 1) true (time i) hstep d hd
    · exact ih (i + 1) true ps (le_trans h hstep) d hd

lemma pause_scan_length (time : ℕ → ℚ) :
    ∀ (flags : List Bool) (i : ℕ) (in_pause : Bool) (pause_start : ℚ),
      (pause_scan time flags i in_pause pause_start).length =
        close_count in_pause flags := by
  intro flags
  induction flags with
  | nil => intro i ip ps; simp [pause_scan, close_count]
  | cons b rest ih =>
    intro i ip ps
    cases b <;> cases ip <;>
      simp only [pause_scan, close_count, Bool.not_true, Bool.not_false,
        Bool.and_true, Bool.and_false, Bool.true_and, Bool.false_and,
        if_true, if_false, Bool.false_eq_true, ite_false, ite_true,
        List.length_cons] <;>
      rw [ih] <;> omega

lemma close_count_eq_countP :
    ∀ (flags : List Bool) (in_pause : Bool),
      close_count in_pause flags =
        ((in_pause :: flags).zip flags).countP (fun p => p.1 && !p.2) := by
  intro flags
  induction flags with
  | nil => intro ip; simp [close_count]
  | cons b rest ih =>
    intro ip
    simp only [close_count, List.zip_cons_cons, List.countP_cons, ih b]
    cases ip <;> cases b <;> simp +arith +decide

/-- Round to the nearest integer, ties to even: the rounding mode of IEEE
binary64 arithmetic, and also the Python builtin `round` on an exact
value. -/
def round_half_even (q : ℚ) : ℤ :=
  if q - ⌊q⌋ < 1/2 then ⌊q⌋
  else if 1/2 < q - ⌊q⌋ then ⌊q⌋ + 1
  else if ⌊q⌋ % 2 = 0 then ⌊q⌋ else ⌊q⌋ + 1

/-- Round an exact rational to the nearest IEEE-754 binary64 value: 53-bit
significand, round to nearest, ties to even.  The exponent range is
unbounded (overflow and subnormals are unreachable for the magnitudes this
pipeline produces, so they are not modelled). -/
def fl (x : ℚ) : ℚ :=
  if x = 0 then 0
  else
    (if x < 0 then -1 else 1) *
      ((round_half_even (|x| * 2 ^ ((52 : ℤ) - Int.log 2 |x|)) : ℚ) *
        2 ^ (Int.log 2 |x| - 52))

/-- IEEE binary64 addition (correctly rounded), the `+` of Python floats. -/
def fadd (x y : ℚ) : ℚ := fl (x + y)

/-- IEEE binary64 subtraction (correctly rounded). -/
def fsub (x y : ℚ) : ℚ := fl (x - y)

/-- IEEE binary64 multiplication (correctly rounded). -/
def fmul (x y : ℚ) : ℚ := fl (x * y)

/-- IEEE binary64 division (correctly rounded; CPython also divides two
ints into the correctly rounded double of their exact quotient). -/
def fdiv (x y : ℚ) : ℚ := fl (x / y)

/-- Modelled from `FeatureExtractor.calculate_speaking_rate`, computed in
IEEE binary64 arithmetic as the Python code does: `total_duration =
len(audio) / self.sr` (the audio enters only through its sample count),
`sum(pause_durations)` folds float additions starting from `0`
(`sum(x) if x else 0` equals the empty fold on `[]`), and the rate is
`(speaking_time * 2.5) / speaking_time * 60` with every operation
correctly rounded. -/
def calculate_speaking_rate (sr : ℚ) (n_samples : ℕ) (pause_durations : List ℚ) : ℚ :=
  let total_duration : ℚ := fdiv (n_samples : ℚ) sr
  let total_pause_time := pause_durations.foldl fadd 0
  let speaking_time := fsub total_duration total_pause_time
  let estimated_words := fmul speaking_time (5 / 2)
  if 0 < speaking_time then fmul (fdiv estimated_words speaking_time) 60 else 0

lemma int_log_eq_of (x : ℚ) (e : ℤ) (hle : (2:ℚ) ^ e ≤ x) (hlt : x < 2 ^ (e + 1)) :
    Int.log 2 x = e := by
  have hx : 0 < x := lt_of_lt_of_le (zpow_pos (by norm_num) e) hle
  have h1 : ((2:ℕ):ℚ) ^ (Int.log 2 x) ≤ x := Int.zpow_log_le_self (by norm_num) hx
  have h2 : x < ((2:ℕ):ℚ) ^ (Int.log 2 x + 1) := Int.lt_zpow_succ_log_self (by norm_num) x
  rw [Nat.cast_ofNat] at h1 h2
  have ha : e < Int.log 2 x + 1 :=
    (zpow_lt_zpow_iff_right₀ (by norm_num : (1:ℚ) < 2)).mp (lt_of_le_of_lt hle h2)
  have hb : Int.log 2 x < e + 1 :=
    (zpow_lt_zpow_iff_right₀ (by norm_num : (1:ℚ) < 2)).mp (lt_of_le_of_lt h1 hlt)
  omega

lemma rhe_eval_lt (q : ℚ) (f : ℤ) (h1 : (f:ℚ) ≤ q) (h2 : q < f + 1)
    (h3 : q - f < 1/2) : round_half_even q = f := by
  have hf : ⌊q⌋ = f := Int.floor_eq_iff.mpr ⟨h1, h2⟩
  unfold round_half_even
  rw [hf, if_pos h3]

lemma rhe_eval_gt (q : ℚ) (f : ℤ) (h1 : (f:ℚ) ≤ q) (h2 : q < f + 1)
    (h3 : 1/2 < q - f) : round_half_even q = f + 1 := by
  have hf : ⌊q⌋ = f := Int.floor_eq_iff.mpr ⟨h1, h2⟩
  unfold round_half_even
  rw [hf, if_neg (by linarith), if_pos h3]

lemma rhe_eval_tie_even (q : ℚ) (f : ℤ) (h1 : (f:ℚ) ≤ q) (h2 : q < f + 1)
    (h3 : q - f = 1/2) (h4 : f % 2 = 0) : round_half_even q = f := by
  have hf : ⌊q⌋ = f := Int.floor_eq_iff.mpr ⟨h1, h2⟩
  unfold round_half_even
  rw [hf, if_neg (by linarith), if_neg (by linarith), if_pos h4]

lemma fl_eval (x : ℚ) (e m : ℤ) (hle : (2:ℚ) ^ e ≤ x) (hlt : x < 2 ^ (e + 1))
    (hm : round_half_even (x * 2 ^ ((52:ℤ) - e)) = m) :
    fl x = (m : ℚ) * 2 ^ (e - 52) := by
  have hx : 0 < x := lt_of_lt_of_le (zpow_pos (by norm_num) e) hle
  unfold fl
  rw [if_neg hx.ne', abs_of_pos hx, int_log_eq_of x e hle hlt, hm,
    if_neg (not_lt.mpr hx.le), one_mul]

/-- The half-ulp relative error bound of round-to-nearest binary64:
`2 ^ (-53)`. -/
def eps : ℚ := 1 / 9007199254740992

lemma rhe_close (q : ℚ) : |((round_half_even q : ℤ) : ℚ) - q| ≤ 1/2 := by
  have h1 : ((⌊q⌋ : ℤ) : ℚ) ≤ q := Int.floor_le q
  have h2 : q < ⌊q⌋ + 1 := Int.lt_floor_add_one q
  unfold round_half_even
  split_ifs with hc1 hc2 hc3 <;> rw [abs_le] <;> constructor <;> push_cast <;> linarith

lemma fl_close (x : ℚ) (hx : 0 < x) : |fl x - x| ≤ x * eps := by
  have h1 : ((2:ℕ):ℚ) ^ (Int.log 2 x) ≤ x := Int.zpow_log_le_self (by norm_num) hx
  rw [Nat.cast_ofNat] at h1
  set e := Int.log 2 x with he
  set s := x * 2 ^ ((52:ℤ) - e) with hs
  have hfl : fl x = ((round_half_even s : ℤ) : ℚ) * 2 ^ (e - 52) := by
    unfold fl
    rw [if_neg hx.ne', abs_of_pos hx, if_neg (not_lt.mpr hx.le), one_mul, ← he, ← hs]
  have hid : s * (2:ℚ) ^ (e - 52) = x := by
    rw [hs, mul_assoc, ← zpow_add₀ (by norm_num : (2:ℚ) ≠ 0)]
    norm_num
  have hpow : (0:ℚ) < 2 ^ (e - 52) := zpow_pos (by norm_num) _
  have habs : |fl x - x| = |((round_half_even s : ℤ) : ℚ) - s| * 2 ^ (e - 52) := by
    rw [hfl, ← hid, ← sub_mul, abs_mul, abs_of_pos hpow]
  have hstep : |((round_half_even s : ℤ) : ℚ) - s| * 2 ^ (e - 52) ≤ 1/2 * 2 ^ (e - 52) :=
    mul_le_mul_of_nonneg_right (rhe_close s) hpow.le
  have h2 : 1/2 * (2:ℚ) ^ (e - 52) = 2 ^ e * eps := by
    rw [sub_eq_add_neg, zpow_add₀ (by norm_num : (2:ℚ) ≠ 0)]
    rw [show ((2:ℚ) ^ (-52 : ℤ)) = 1 / 4503599627370496 from by norm_num]
    rw [eps]
    ring
  have hfin : (2:ℚ) ^ e * eps ≤ x * eps :=
    mul_le_mul_of_nonneg_right h1 (by norm_num [eps])
  rw [habs]
  linarith

lemma fl_bounds_pos (x : ℚ) (hx : 0 < x) :
    x * (1 - eps) ≤ fl x ∧ fl x ≤ x * (1 + eps) ∧ 0 < fl x := by
  obtain ⟨hl, hr⟩ := abs_le.mp (fl_close x hx)
  have heps : (0:ℚ) < 1 - eps := by norm_num [eps]
  have hxe : 0 < x * (1 - eps) := mul_pos hx heps
  refine ⟨by linarith, by linarith, lt_of_lt_of_le hxe (by linarith)⟩

/-- The pause list of the C1 counterexample: the exact binary64 values of
the pipeline-realistic pause durations `0.23219954648526198 s`,
`0.6501587301587293 s` and `0.8591383219954647 s`. -/
def cex_pauses : List ℚ :=
  [16339590484791 / 70368744177664,
   91501706714829 / 140737488355328,
   483651878349811 / 562949953421312]

/-- Counterexample for C1: for the 9605744-sample audio (435.63 s at
22050 Hz) and the pause list `cex_pauses`, the computed speaking time is
positive but the float computation returns
`5277655813324799 / 2 ^ 45 = 149.99999999999997`, one ulp below 150 — the
algebraic collapse to exactly 150 does not survive binary64 rounding. -/
theorem calculate_speaking_rate_not_150_cex :
    0 < fsub (fdiv (9605744 : ℚ) 22050) (cex_pauses.foldl fadd 0) ∧
    calculate_speaking_rate 22050 9605744 cex_pauses < 150 := by
  have h_td : fdiv (9605744 : ℚ) 22050 = 7663765784264523 / 17592186044416 := by
    unfold fdiv
    rw [fl_eval ((9605744:ℚ) / 22050) 8 7663765784264523 (by norm_num) (by norm_num)
      (rhe_eval_gt ((9605744:ℚ) / 22050 * 2 ^ ((52:ℤ) - 8)) 7663765784264522
        (by norm_num) (by norm_num) (by norm_num))]
    norm_num
  have h_s1 : fadd 0 (16339590484791 / 70368744177664 : ℚ) =
      16339590484791 / 70368744177664 := by
    unfold fadd
    rw [zero_add]
    rw [fl_eval ((16339590484791:ℚ) / 70368744177664) (-3) 8365870328212992
      (by norm_num) (by norm_num)
      (rhe_eval_lt ((16339590484791:ℚ) / 70368744177664 * 2 ^ ((52:ℤ) - (-3)))
        8365870328212992 (by norm_num) (by norm_num) (by norm_num))]
    norm_num
  have h_s2 : fadd (16339590484791 / 70368744177664 : ℚ)
      (91501706714829 / 140737488355328) = 124180887684411 / 140737488355328 := by
    unfold fadd
    rw [fl_eval ((16339590484791:ℚ) / 70368744177664 + 91501706714829 / 140737488355328)
      (-1) 7947576811802304 (by norm_num) (by norm_num)
      (rhe_eval_lt (((16339590484791:ℚ) / 70368744177664 + 91501706714829 / 140737488355328)
          * 2 ^ ((52:ℤ) - (-1))) 7947576811802304 (by norm_num) (by norm_num) (by norm_num))]
    norm_num
  have h_s3 : fadd (124180887684411 / 140737488355328 : ℚ)
      (483651878349811 / 562949953421312) = 980375429087455 / 562949953421312 := by
    unfold fadd
    rw [fl_eval ((124180887684411:ℚ) / 140737488355328 + 483651878349811 / 562949953421312)
      0 7843003432699640 (by norm_num) (by norm_num)
      (rhe_eval_lt (((124180887684411:ℚ) / 140737488355328 + 483651878349811 / 562949953421312)
          * 2 ^ ((52:ℤ) - 0)) 7843003432699640 (by norm_num) (by norm_num) (by norm_num))]
    norm_num
  have h_sum : cex_pauses.foldl fadd 0 = 980375429087455 / 562949953421312 := by
    simp only [cex_pauses, List.foldl_cons, List.foldl_nil]
    rw [h_s1, h_s2, h_s3]
  have h_st : fsub (7663765784264523 / 17592186044416 : ℚ)
      (980375429087455 / 562949953421312) = 1908282263026385 / 4398046511104 := by
    unfold fsub
    rw [fl_eval ((7663765784264523:ℚ) / 17592186044416 - 980375429087455 / 562949953421312)
      8 7633129052105540 (by norm_num) (by norm_num)
      (rhe_eval_lt (((7663765784264523:ℚ) / 17592186044416 - 980375429087455 / 562949953421312)
          * 2 ^ ((52:ℤ) - 8)) 7633129052105540 (by norm_num) (by norm_num) (by norm_num))]
    norm_num
  have h_ew : fmul (1908282263026385 / 4398046511104 : ℚ) (5 / 2) =
      2385352828782981 / 2199023255552 := by
    unfold fmul
    rw [fl_eval ((1908282263026385:ℚ) / 4398046511104 * (5 / 2)) 10 4770705657565962
      (by norm_num) (by norm_num)
      (rhe_eval_tie_even (((1908282263026385:ℚ) / 4398046511104 * (5 / 2))
          * 2 ^ ((52:ℤ) - 10)) 4770705657565962
        (by norm_num) (by norm_num) (by norm_num) (by norm_num))]
    norm_num
  have h_q : fdiv (2385352828782981 / 2199023255552 : ℚ)
      (1908282263026385 / 4398046511104) = 5629499534213119 / 2251799813685248 := by
    unfold fdiv
    rw [fl_eval ((2385352828782981:ℚ) / 2199023255552 / (1908282263026385 / 4398046511104))
      1 5629499534213119 (by norm_num) (by norm_num)
      (rhe_eval_lt (((2385352828782981:ℚ) / 2199023255552 / (1908282263026385 / 4398046511104))
          * 2 ^ ((52:ℤ) - 1)) 5629499534213119 (by norm_num) (by norm_num) (by norm_num))]
    norm_num
  have h_res : fmul (5629499534213119 / 2251799813685248 : ℚ) 60 =
      5277655813324799 / 35184372088832 := by
    unfold fmul
    rw [fl_eval ((5629499534213119:ℚ) / 2251799813685248 * 60) 7 5277655813324799
      (by norm_num) (by norm_num)
      (rhe_eval_lt (((5629499534213119:ℚ) / 2251799813685248 * 60) * 2 ^ ((52:ℤ) - 7))
        5277655813324799 (by norm_num) (by norm_num) (by norm_num))]
    norm_num
  constructor
  · rw [h_td, h_sum, h_st]
    norm_num
  · simp only [calculate_speaking_rate, Nat.cast_ofNat]
    rw [h_td, h_sum, h_st]
    rw [if_pos (by norm_num : (0:ℚ) < 1908282263026385 / 4398046511104)]
    rw [h_ew, h_q, h_res]
    norm_num

/-- Claim C1 (amended): in binary64 arithmetic the estimator returns a
value within relative error `2 ^ (-50)` of 150 WPM (a few ulps; the
algebraic collapse of `speaking_time * 2.5 / speaking_time * 60` to the
constant 150 is exact only in real arithmetic) whenever the computed
`speaking_time` is strictly positive, and returns exactly 0 whenever
`speaking_time ≤ 0`. -/
theorem calculate_speaking_rate_near_150 (sr : ℚ) (n_samples : ℕ)
    (pause_durations : List ℚ) :
    (0 < fsub (fdiv (n_samples : ℚ) sr) (pause_durations.foldl fadd 0) →
      |calculate_speaking_rate sr n_samples pause_durations - 150| ≤ 150 / 2 ^ 50) ∧
    (fsub (fdiv (n_samples : ℚ) sr) (pause_durations.foldl fadd 0) ≤ 0 →
      calculate_speaking_rate sr n_samples pause_durations = 0) := by
  constructor
  · intro hst
    set st := fsub (fdiv (n_samples : ℚ) sr) (pause_durations.foldl fadd 0) with hstdef
    simp only [calculate_speaking_rate]
    rw [← hstdef, if_pos hst]
    simp only [fmul, fdiv]
    obtain ⟨hA1, hA2, hA3⟩ := fl_bounds_pos (st * (5 / 2)) (mul_pos hst (by norm_num))
    obtain ⟨hB1, hB2, hB3⟩ := fl_bounds_pos (fl (st * (5 / 2)) / st) (div_pos hA3 hst)
    obtain ⟨hC1, hC2, hC3⟩ :=
      fl_bounds_pos (fl (fl (st * (5 / 2)) / st) * 60) (mul_pos hB3 (by norm_num))
    have hq2 : fl (st * (5 / 2)) / st ≤ 5/2 * (1 + eps) := by
      rw [div_le_iff₀ hst]
      linarith
    have hq1 : 5/2 * (1 - eps) ≤ fl (st * (5 / 2)) / st := by
      rw [le_div_iff₀ hst]
      linarith
    have hip : (0:ℚ) ≤ 1 + eps := by norm_num [eps]
    have him : (0:ℚ) ≤ 1 - eps := by norm_num [eps]
    have hr2 : fl (fl (st * (5 / 2)) / st) ≤ 5/2 * (1 + eps) ^ 2 := by
      calc fl (fl (st * (5 / 2)) / st) ≤ (fl (st * (5 / 2)) / st) * (1 + eps) := hB2
        _ ≤ (5/2 * (1 + eps)) * (1 + eps) := mul_le_mul_of_nonneg_right hq2 hip
        _ = 5/2 * (1 + eps) ^ 2 := by ring
    have hr1 : 5/2 * (1 - eps) ^ 2 ≤ fl (fl (st * (5 / 2)) / st) := by
      calc 5/2 * (1 - eps) ^ 2 = (5/2 * (1 - eps)) * (1 - eps) := by ring
        _ ≤ (fl (st * (5 / 2)) / st) * (1 - eps) := mul_le_mul_of_nonneg_right hq1 him
        _ ≤ fl (fl (st * (5 / 2)) / st) := hB1
    have hs2 : fl (fl (fl (st * (5 / 2)) / st) * 60) ≤ 150 * (1 + eps) ^ 3 := by
      calc fl (fl (fl (st * (5 / 2)) / st) * 60) ≤
          (fl (fl (st * (5 / 2)) / st) * 60) * (1 + eps) := hC2
        _ ≤ ((5/2 * (1 + eps) ^ 2) * 60) * (1 + eps) :=
            mul_le_mul_of_nonneg_right
              (mul_le_mul_of_nonneg_right hr2 (by norm_num)) hip
        _ = 150 * (1 + eps) ^ 3 := by ring
    have hs1 : 150 * (1 - eps) ^ 3 ≤ fl (fl (fl (st * (5 / 2)) / st) * 60) := by
      calc 150 * (1 - eps) ^ 3 = ((5/2 * (1 - eps) ^ 2) * 60) * (1 - eps) := by ring
        _ ≤ (fl (fl (st * (5 / 2)) / st) * 60) * (1 - eps) :=
            mul_le_mul_of_nonneg_right
              (mul_le_mul_of_nonneg_right hr1 (by norm_num)) him
        _ ≤ fl (fl (fl (st * (5 / 2)) / st) * 60) := hC1
    have hub : 150 * (1 + eps) ^ 3 ≤ 150 + 150 / 2 ^ 50 := by norm_num [eps]
    have hlb : 150 - 150 / 2 ^ 50 ≤ 150 * (1 - eps) ^ 3 := by norm_num [eps]
    rw [abs_le]
    constructor <;> linarith
  · intro hst
    simp only [calculate_speaking_rate]
    rw [if_neg (not_lt.mpr hst)]

/-- Witness for C1 (amended) at 220500 samples (10 s at 22050 Hz) and
`pauses = [2]`: the computed speaking time is `fl(10) - fl(2) = 8 > 0` and
the result is within `150 / 2 ^ 50` of 150. -/
theorem calculate_speaking_rate_near_150_witness :
    (0 < fsub (fdiv ((220500 : ℕ) : ℚ) 22050) (List.foldl fadd 0 ([2] : List ℚ))) ∧
    |calculate_speaking_rate 22050 220500 [2] - 150| ≤ 150 / 2 ^ 50 := by
  have h_td : fdiv ((220500 : ℕ) : ℚ) 22050 = 10 := by
    rw [show ((220500 : ℕ) : ℚ) = 220500 from by norm_num]
    unfold fdiv
    rw [fl_eval ((220500:ℚ) / 22050) 3 5629499534213120 (by norm_num) (by norm_num)
      (rhe_eval_lt ((220500:ℚ) / 22050 * 2 ^ ((52:ℤ) - 3)) 5629499534213120
        (by norm_num) (by norm_num) (by norm_num))]
    norm_num
  have h_s : fadd 0 (2 : ℚ) = 2 := by
    unfold fadd
    rw [zero_add]
    rw [fl_eval (2:ℚ) 1 4503599627370496 (by norm_num) (by norm_num)
      (rhe_eval_lt ((2:ℚ) * 2 ^ ((52:ℤ) - 1)) 4503599627370496
        (by norm_num) (by norm_num) (by norm_num))]
    norm_num
  have h_st : fsub (10 : ℚ) 2 = 8 := by
    unfold fsub
    rw [fl_eval ((10:ℚ) - 2) 3 4503599627370496 (by norm_num) (by norm_num)
      (rhe_eval_lt (((10:ℚ) - 2) * 2 ^ ((52:ℤ) - 3)) 4503599627370496
        (by norm_num) (by norm_num) (by norm_num))]
    norm_num
  have hpos : 0 < fsub (fdiv ((220500 : ℕ) : ℚ) 22050) (List.foldl fadd 0 ([2] : List ℚ)) := by
    simp only [List.foldl_cons, List.foldl_nil]
    rw [h_td, h_s, h_st]
    norm_num
  exact ⟨hpos, (calculate_speaking_rate_near_150 22050 220500 [2]).1 hpos⟩

/-- Claim C2: for every non-empty energy sequence, pause segmentation
computes the 25th-percentile threshold, marks frame `i` paused iff its
energy is strictly below the threshold, runs the open/close scan with frame
`i` at time `i * 512 / sr`, every recorded duration is non-negative (no
pause has `start_time > end_time`), and the number of recorded pauses is
exactly the number of `paused → non-paused` transitions (with a virtual
non-paused initial state), so a pause still open at sequence end is never
recorded. -/
theorem extract_pauses_sound (sr : ℚ) (energy : List ℚ) (hsr : 0 < sr)
    (hne : 0 < energy.length) :
    ∃ threshold pauses,
      percentile energy 25 = some threshold ∧
      extract_pauses sr energy 25 = some pauses ∧
      pauses = pause_scan (frames_to_time sr)
        (energy.map (fun e => decide (e < threshold))) 0 false 0 ∧
      (∀ d ∈ pauses, 0 ≤ d) ∧
      pauses.length =
        ((false :: energy.map (fun e => decide (e < threshold))).zip
            (energy.map (fun e => decide (e < threshold)))).countP
          (fun p => p.1 && !p.2) := by
  have hlen : energy.length ≠ 0 := Nat.pos_iff_ne_zero.mp hne
  have hmono : ∀ i j : ℕ, i ≤ j → frames_to_time sr i ≤ frames_to_time sr j := by
    intro i j hij
    unfold frames_to_time
    have hi : (i : ℚ) ≤ (j : ℚ) := by exact_mod_cast hij
    have h512 : (i : ℚ) * 512 ≤ (j : ℚ) * 512 := by linarith
    exact (div_le_div_iff_of_pos_right hsr).mpr h512
  obtain ⟨threshold, hth⟩ : ∃ t, percentile energy 25 = some t := by
    unfold percentile
    rw [if_neg hlen]
    exact ⟨_, rfl⟩
  refine ⟨threshold, _, hth, ?_, rfl, ?_, ?_⟩
  · unfold extract_pauses
    rw [hth]
  · intro d hd
    refine pause_scan_nonneg (frames_to_time sr) hmono _ 0 false 0 ?_ d hd
    simp [frames_to_time]
  · rw [pause_scan_length, close_count_eq_countP]

/-- Witness for C2 at `sr = 22050`, `energy = [10, 0, 20, 30]`. -/
theorem extract_pauses_sound_witness :
    (0 : ℚ) < 22050 ∧ 0 < ([10, 0, 20, 30] : List ℚ).length ∧
      ∃ threshold pauses,
        percentile [10, 0, 20, 30] 25 = some threshold ∧
        extract_pauses 22050 [10, 0, 20, 30] 25 = some pauses ∧
        pauses = pause_scan (frames_to_time 22050)
          (([10, 0, 20, 30] : List ℚ).map (fun e => decide (e < threshold))) 0 false 0 ∧
        (∀ d ∈ pauses, 0 ≤ d) ∧
        pauses.length =
          ((false :: ([10, 0, 20, 30] : List ℚ).map (fun e => decide (e < threshold))).zip
              (([10, 0, 20, 30] : List ℚ).map (fun e => decide (e < threshold)))).countP
            (fun p => p.1 && !p.2) :=
  ⟨by norm_num, by norm_num,
    extract_pauses_sound 22050 [10, 0, 20, 30] (by norm_num) (by norm_num)⟩

/-- Counterexample for C8: on an empty energy sequence the code reaches
`np.percentile` on an empty array, which raises rather than returning a
value; `extract_pauses` therefore yields no pause list at all (in
particular not the empty list the claim promises). -/
theorem extract_pauses_empty_cex :
    extract_pauses 22050 ([] : List ℚ) 25 = none ∧
      (extract_pauses 22050 ([] : List ℚ) 25).isSome = false := by
  exact ⟨rfl, rfl⟩

/-- Claim C8 (amended): given an empty energy sequence, pause segmentation
propagates the error of the percentile computation (numpy raises on an
empty array) instead of returning an empty pause list. -/
theorem extract_pauses_empty_propagates (sr threshold_percentile : ℚ) :
    extract_pauses sr [] threshold_percentile = none := rfl

/-- The five emotion labels, in the dict-insertion order of the `scores`
dict of `PersonalizationEngine._infer_emotion`. -/
inductive Emotion
  | happy
  | sad
  | angry
  | calm
  | neutral
deriving DecidableEq, Repr

/-- Python dict iteration order of the `scores` dict (insertion order). -/
def emotion_order : List Emotion :=
  [Emotion.happy, Emotion.sad, Emotion.angry, Emotion.calm, Emotion.neutral]

/-- The `scores` dict of `_infer_emotion`, one rational per label. -/
@[ext]
structure Scores where
  happy : ℚ
  sad : ℚ
  angry : ℚ
  calm : ℚ
  neutral : ℚ
deriving DecidableEq, Repr

def Scores.get (s : Scores) : Emotion → ℚ
  | Emotion.happy => s.happy
  | Emotion.sad => s.sad
  | Emotion.angry => s.angry
  | Emotion.calm => s.calm
  | Emotion.neutral => s.neutral

/-- Modelled from `sum(scores.values())`. -/
def Scores.total (s : Scores) : ℚ :=
  s.happy + s.sad + s.angry + s.calm + s.neutral

def Scores.add (s t : Scores) : Scores :=
  ⟨s.happy + t.happy, s.sad + t.sad, s.angry + t.angry,
    s.calm + t.calm, s.neutral + t.neutral⟩

/-- Modelled from the sequential rule block of
`PersonalizationEngine._infer_emotion` (score accumulation only; the
parallel `rules_triggered` accumulation is `rules_triggered` below).
Thresholds: HIGH_PITCH=200, LOW_PITCH=130, HIGH_RANGE=80, LOW_RANGE=40,
FAST_RATE=160, SLOW_RATE=110, HIGH_ENERGY=45, LOW_ENERGY=35. -/
def infer_scores (mean_pitch pitch_range speaking_rate avg_energy : ℚ) : Scores :=
  let s0 : Scores := ⟨0, 0, 0, 0, 0⟩
  let s1 := if 200 < mean_pitch then
    { s0 with happy := s0.happy + 1, angry := s0.angry + 1/2 } else s0
  let s2 := if 80 < pitch_range then
    { s1 with happy := s1.happy + 1, angry := s1.angry + 1 } else s1
  let s3 := if 160 < speaking_rate then
    { s2 with happy := s2.happy + 1/2, angry := s2.angry + 1/2 } else s2
  let s4 := if 45 < avg_energy then
    { s3 with angry := s3.angry + 1, happy := s3.happy + 1/2 } else s3
  let s5 := if mean_pitch < 130 then
    { s4 with sad := s4.sad + 1 } else s4
  let s6 := if pitch_range < 40 then
    { s5 with sad := s5.sad + 1/2, calm := s5.calm + 1/2 } else s5
  let s7 := if speaking_rate < 110 then
    { s6 with sad := s6.sad + 1/2, calm := s6.calm + 1/2 } else s6
  let s8 := if avg_energy < 35 then
    { s7 with sad := s7.sad + 1/2, calm := s7.calm + 1/2 } else s7
  let s9 := if 130 ≤ mean_pitch ∧ mean_pitch ≤ 200 ∧ 40 ≤ pitch_range ∧ pitch_range ≤ 80 then
    { s8 with neutral := s8.neutral + 1/2 } else s8
  let s10 := if 110 < speaking_rate ∧ speaking_rate < 160 ∧ 35 < avg_energy ∧ avg_energy < 45 then
    { s9 with calm := s9.calm + 1/2, neutral := s9.neutral + 1/2 } else s9
  s10

/-- Modelled from the `rules_triggered.append(...)` calls of
`_infer_emotion`, in their source order. -/
def rules_triggered (mean_pitch pitch_range speaking_rate avg_energy : ℚ) :
    List String :=
  (if 200 < mean_pitch then ["high_mean_pitch"] else []) ++
  (if 80 < pitch_range then ["large_pitch_range"] else []) ++
  (if 160 < speaking_rate then ["fast_speaking_rate"] else []) ++
  (if 45 < avg_energy then ["high_energy"] else []) ++
  (if mean_pitch < 130 then ["low_mean_pitch"] else []) ++
  (if pitch_range < 40 then ["small_pitch_range"] else []) ++
  (if speaking_rate < 110 then ["slow_speaking_rate"] else []) ++
  (if avg_energy < 35 then ["low_energy"] else []) ++
  (if 130 ≤ mean_pitch ∧ mean_pitch ≤ 200 ∧ 40 ≤ pitch_range ∧ pitch_range ≤ 80 then
    ["mid_pitch_mid_range"] else []) ++
  (if 110 < speaking_rate ∧ speaking_rate < 160 ∧ 35 < avg_energy ∧ avg_energy < 45 then
    ["mid_rate_mid_energy"] else [])

/-- Behaviour of the Python builtin `max(scores, key=scores.get)`: scan the keys in dict order,
replacing the current best only on a strictly larger score, so ties keep
the earlier key. -/
def py_max (s : Scores) : List Emotion → Emotion → Emotion
  | [], best => best
  | e :: rest, best => py_max s rest (if s.get best < s.get e then e else best)

/-- Modelled from `dominant = max(scores, key=scores.get)` over the dict insertion
order `happy, sad, angry, calm, neutral`. -/
def dominant_emotion (s : Scores) : Emotion :=
  py_max s [Emotion.sad, Emotion.angry, Emotion.calm, Emotion.neutral] Emotion.happy

/-- Modelled from the Python builtin `round(x, 2)` (round half to even,
as `round_half_even` above). -/
def round2 (q : ℚ) : ℚ :=
  ((round_half_even (100 * q) : ℤ) : ℚ) / 100

/-- The tail of `_infer_emotion`: `max_score / (sum(scores.values()) or 1.0)`
rounded to two decimals (`x or 1.0` is `1.0` exactly when `x == 0`). -/
def confidence_of (s : Scores) : ℚ :=
  let max_score := s.get (dominant_emotion s)
  let total := if s.total = 0 then 1 else s.total
  round2 (max_score / total)

/-- The dict returned by `_infer_emotion`. -/
structure EmotionResult where
  dominant_emotion : Emotion
  confidence : ℚ
  scores : Scores
  rules_triggered : List String
  features_used : ℚ × ℚ × ℚ × ℚ
deriving DecidableEq, Repr

/-- Modelled from `PersonalizationEngine._infer_emotion` as a function of
the four derived features (the feature-derivation code from the profile
fields is `infer_emotion` below). -/
def infer_emotion_core (mean_pitch pitch_range speaking_rate avg_energy : ℚ) :
    EmotionResult :=
  let s := infer_scores mean_pitch pitch_range speaking_rate avg_energy
  { dominant_emotion := dominant_emotion s,
    confidence := confidence_of s,
    scores := s,
    rules_triggered := rules_triggered mean_pitch pitch_range speaking_rate avg_energy,
    features_used := (mean_pitch, pitch_range, speaking_rate, avg_energy) }

/-- One row of the rule table of the spec (§4.3): a condition on the four
features, the fixed partial weights it contributes to the five labels,
and its rule identifier. -/
structure EmotionRule where
  applies : ℚ → ℚ → ℚ → ℚ → Bool
  weights : Scores
  rule_id : String

/-- Modelled from the spec: the declarative rule table of §4.3, one row per
condition, in table order. -/
def rule_table : List EmotionRule :=
  [⟨fun mp _ _ _ => decide (200 < mp), ⟨1, 0, 1/2, 0, 0⟩, "high_mean_pitch"⟩,
   ⟨fun _ pr _ _ => decide (80 < pr), ⟨1, 0, 1, 0, 0⟩, "large_pitch_range"⟩,
   ⟨fun _ _ sr _ => decide (160 < sr), ⟨1/2, 0, 1/2, 0, 0⟩, "fast_speaking_rate"⟩,
   ⟨fun _ _ _ ae => decide (45 < ae), ⟨1/2, 0, 1, 0, 0⟩, "high_energy"⟩,
   ⟨fun mp _ _ _ => decide (mp < 130), ⟨0, 1, 0, 0, 0⟩, "low_mean_pitch"⟩,
   ⟨fun _ pr _ _ => decide (pr < 40), ⟨0, 1/2, 0, 1/2, 0⟩, "small_pitch_range"⟩,
   ⟨fun _ _ sr _ => decide (sr < 110), ⟨0, 1/2, 0, 1/2, 0⟩, "slow_speaking_rate"⟩,
   ⟨fun _ _ _ ae => decide (ae < 35), ⟨0, 1/2, 0, 1/2, 0⟩, "low_energy"⟩,
   ⟨fun mp pr _ _ => decide (130 ≤ mp ∧ mp ≤ 200 ∧ 40 ≤ pr ∧ pr ≤ 80),
     ⟨0, 0, 0, 0, 1/2⟩, "mid_pitch_mid_range"⟩,
   ⟨fun _ _ sr ae => decide (110 < sr ∧ sr < 160 ∧ 35 < ae ∧ ae < 45),
     ⟨0, 0, 0, 1/2, 1/2⟩, "mid_rate_mid_energy"⟩]

/-- Modelled from the spec: the five scores are the sum of the fixed
weights of every independently satisfied table row. -/
def spec_scores (mp pr sr ae : ℚ) : Scores :=
  rule_table.foldl
    (fun acc r => if r.applies mp pr sr ae then acc.add r.weights else acc)
    ⟨0, 0, 0, 0, 0⟩

/-- Modelled from the spec: `rules_triggered` lists exactly the satisfied
identifiers of the satisfied rules in table order. -/
def spec_triggered (mp pr sr ae : ℚ) : List String :=
  (rule_table.filter (fun r => r.applies mp pr sr ae)).map
    (fun r => r.rule_id)

lemma ite_add_shift (c : Prop) [Decidable c] (x a : ℚ) :
    (if c then x + a else x) = x + (if c then a else 0) := by
  split <;> simp

lemma ite_append {α : Type} (c : Prop) [Decidable c] (l1 l2 t : List α) :
    (if c then l1 else l2) ++ t = if c then l1 ++ t else l2 ++ t := by
  split <;> rfl

lemma infer_scores_happy (mp pr sr ae : ℚ) :
    (infer_scores mp pr sr ae).happy =
      0 + (if 200 < mp then (1 : ℚ) else 0) + (if 80 < pr then 1 else 0) +
        (if 160 < sr then 1/2 else 0) + (if 45 < ae then 1/2 else 0) := by
  simp only [infer_scores, apply_ite Scores.happy, ite_self, ite_add_shift]

lemma infer_scores_sad (mp pr sr ae : ℚ) :
    (infer_scores mp pr sr ae).sad =
      0 + (if mp < 130 then (1 : ℚ) else 0) + (if pr < 40 then 1/2 else 0) +
        (if sr < 110 then 1/2 else 0) + (if ae < 35 then 1/2 else 0) := by
  simp only [infer_scores, apply_ite Scores.sad, ite_self, ite_add_shift]

lemma infer_scores_angry (mp pr sr ae : ℚ) :
    (infer_scores mp pr sr ae).angry =
      0 + (if 200 < mp then (1 : ℚ)/2 else 0) + (if 80 < pr then 1 else 0) +
        (if 160 < sr then 1/2 else 0) + (if 45 < ae then 1 else 0) := by
  simp only [infer_scores, apply_ite Scores.angry, ite_self, ite_add_shift]

lemma infer_scores_calm (mp pr sr ae : ℚ) :
    (infer_scores mp pr sr ae).calm =
      0 + (if pr < 40 then (1 : ℚ)/2 else 0) + (if sr < 110 then 1/2 else 0) +
        (if ae < 35 then 1/2 else 0) +
        (if 110 < sr ∧ sr < 160 ∧ 35 < ae ∧ ae < 45 then 1/2 else 0) := by
  simp only [infer_scores, apply_ite Scores.calm, ite_self, ite_add_shift]

lemma infer_scores_neutral (mp pr sr ae : ℚ) :
    (infer_scores mp pr sr ae).neutral =
      0 + (if 130 ≤ mp ∧ mp ≤ 200 ∧ 40 ≤ pr ∧ pr ≤ 80 then (1 : ℚ)/2 else 0) +
        (if 110 < sr ∧ sr < 160 ∧ 35 < ae ∧ ae < 45 then 1/2 else 0) := by
  simp only [infer_scores, apply_ite Scores.neutral, ite_self, ite_add_shift]

lemma spec_scores_happy (mp pr sr ae : ℚ) :
    (spec_scores mp pr sr ae).happy =
      0 + (if 200 < mp then (1 : ℚ) else 0) + (if 80 < pr then 1 else 0) +
        (if 160 < sr then 1/2 else 0) + (if 45 < ae then 1/2 else 0) := by
  simp only [spec_scores, rule_table, List.foldl_cons, List.foldl_nil,
    Scores.add, decide_eq_true_eq, apply_ite Scores.happy, ite_self,
    ite_add_shift, add_zero]

lemma spec_scores_sad (mp pr sr ae : ℚ) :
    (spec_scores mp pr sr ae).sad =
      0 + (if mp < 130 then (1 : ℚ) else 0) + (if pr < 40 then 1/2 else 0) +
        (if sr < 110 then 1/2 else 0) + (if ae < 35 then 1/2 else 0) := by
  simp only [spec_scores, rule_table, List.foldl_cons, List.foldl_nil,
    Scores.add, decide_eq_true_eq, apply_ite Scores.sad, ite_self,
    ite_add_shift, add_zero]

lemma spec_scores_angry (mp pr sr ae : ℚ) :
    (spec_scores mp pr sr ae).angry =
      0 + (if 200 < mp then (1 : ℚ)/2 else 0) + (if 80 < pr then 1 else 0) +
        (if 160 < sr then 1/2 else 0) + (if 45 < ae then 1 else 0) := by
  simp only [spec_scores, rule_table, List.foldl_cons, List.foldl_nil,
    Scores.add, decide_eq_true_eq, apply_ite Scores.angry, ite_self,
    ite_add_shift, add_zero]

lemma spec_scores_calm (mp pr sr ae : ℚ) :
    (spec_scores mp pr sr ae).calm =
      0 + (if pr < 40 then (1 : ℚ)/2 else 0) + (if sr < 110 then 1/2 else 0) +
        (if ae < 35 then 1/2 else 0) +
        (if 110 < sr ∧ sr < 160 ∧ 35 < ae ∧ ae < 45 then 1/2 else 0) := by
  simp only [spec_scores, rule_table, List.foldl_cons, List.foldl_nil,
    Scores.add, decide_eq_true_eq, apply_ite Scores.calm, ite_self,
    ite_add_shift, add_zero]

lemma spec_scores_neutral (mp pr sr ae : ℚ) :
    (spec_scores mp pr sr ae).neutral =
      0 + (if 130 ≤ mp ∧ mp ≤ 200 ∧ 40 ≤ pr ∧ pr ≤ 80 then (1 : ℚ)/2 else 0) +
        (if 110 < sr ∧ sr < 160 ∧ 35 < ae ∧ ae < 45 then 1/2 else 0) := by
  simp only [spec_scores, rule_table, List.foldl_cons, List.foldl_nil,
    Scores.add, decide_eq_true_eq, apply_ite Scores.neutral, ite_self,
    ite_add_shift, add_zero]

lemma infer_scores_eq_spec (mp pr sr ae : ℚ) :
    infer_scores mp pr sr ae = spec_scores mp pr sr ae := by
  ext
  · rw [infer_scores_happy, spec_scores_happy]
  · rw [infer_scores_sad, spec_scores_sad]
  · rw [infer_scores_angry, spec_scores_angry]
  · rw [infer_scores_calm, spec_scores_calm]
  · rw [infer_scores_neutral, spec_scores_neutral]

lemma rules_triggered_eq_spec (mp pr sr ae : ℚ) :
    rules_triggered mp pr sr ae = spec_triggered mp pr sr ae := by
  simp only [rules_triggered, spec_triggered, rule_table, List.filter_cons,
    List.filter_nil, decide_eq_true_eq, ite_append, List.nil_append,
    List.singleton_append, List.cons_append, List.append_assoc,
    List.append_nil, apply_ite (List.map fun r : EmotionRule => r.rule_id),
    List.map_cons, List.map_nil]

/-- Claim C4: for every input quadruple, the five classifier scores equal
the sum of the fixed weights of every independently satisfied row of the
rule table of the spec, and `rules_triggered` lists exactly the
identifiers of the satisfied rules in table order. -/
theorem infer_emotion_matches_rule_table (mp pr sr ae : ℚ) :
    (infer_emotion_core mp pr sr ae).scores = spec_scores mp pr sr ae ∧
      (infer_emotion_core mp pr sr ae).rules_triggered = spec_triggered mp pr sr ae :=
  ⟨infer_scores_eq_spec mp pr sr ae, rules_triggered_eq_spec mp pr sr ae⟩

lemma py_max_ge (s : Scores) :
    ∀ (l : List Emotion) (best : Emotion),
      s.get best ≤ s.get (py_max s l best) ∧
        ∀ e ∈ l, s.get e ≤ s.get (py_max s l best) := by
  intro l
  induction l with
  | nil =>
    intro best
    exact ⟨le_refl _, by simp⟩
  | cons a rest ih =>
    intro best
    simp only [py_max]
    obtain ⟨h1, h2⟩ := ih (if s.get best < s.get a then a else best)
    have hbest : s.get best ≤ s.get (if s.get best < s.get a then a else best) := by
      split_ifs with hc
      · exact le_of_lt hc
      · exact le_refl _
    have ha : s.get a ≤ s.get (if s.get best < s.get a then a else best) := by
      split_ifs with hc
      · exact le_refl _
      · exact le_of_not_lt hc
    refine ⟨le_trans hbest h1, ?_⟩
    intro e he
    rcases List.mem_cons.mp he with rfl | he2
    · exact le_trans ha h1
    · exact h2 e he2

lemma dominant_is_max (s : Scores) (e : Emotion) :
    s.get e ≤ s.get (dominant_emotion s) := by
  have h := py_max_ge s
    [Emotion.sad, Emotion.angry, Emotion.calm, Emotion.neutral] Emotion.happy
  cases e with
  | happy => exact h.1
  | sad => exact h.2 _ (by simp)
  | angry => exact h.2 _ (by simp)
  | calm => exact h.2 _ (by simp)
  | neutral => exact h.2 _ (by simp)

lemma dominant_first (s : Scores) (e : Emotion)
    (h : s.get (dominant_emotion s) ≤ s.get e) :
    emotion_order.indexOf (dominant_emotion s) ≤ emotion_order.indexOf e := by
  unfold dominant_emotion at *
  simp only [py_max] at *
  split_ifs at * <;> cases e <;>
    first
      | decide
      | (simp only [Scores.get] at *; linarith)

lemma infer_scores_tie_eval : infer_scores 220 90 170 50 = ⟨3, 0, 3, 0, 0⟩ := by
  norm_num [infer_scores]

lemma dominant_tie_eval :
    dominant_emotion (⟨3, 0, 3, 0, 0⟩ : Scores) = Emotion.happy := by
  norm_num [dominant_emotion, py_max, Scores.get]

/-- Claim C5: the dominant emotion achieves the maximal score; on ties it
is the label enumerated first in the dict order
`happy, sad, angry, calm, neutral`; at `mean_pitch=220, pitch_range=90,
speaking_rate=170, avg_energy=50` both `happy` and `angry` score 3 and the
deterministic tie-break picks `happy`. -/
theorem dominant_emotion_argmax_first (mp pr sr ae : ℚ) :
    (∀ e, (infer_scores mp pr sr ae).get e ≤
        (infer_scores mp pr sr ae).get
          ((infer_emotion_core mp pr sr ae).dominant_emotion)) ∧
    (∀ e, (infer_scores mp pr sr ae).get
          ((infer_emotion_core mp pr sr ae).dominant_emotion) ≤
        (infer_scores mp pr sr ae).get e →
      emotion_order.indexOf ((infer_emotion_core mp pr sr ae).dominant_emotion) ≤
        emotion_order.indexOf e) ∧
    (infer_emotion_core 220 90 170 50).dominant_emotion = Emotion.happy ∧
    (infer_scores 220 90 170 50).happy = 3 ∧
    (infer_scores 220 90 170 50).angry = 3 := by
  refine ⟨fun e => dominant_is_max _ e, fun e h => dominant_first _ e h, ?_, ?_, ?_⟩
  · show dominant_emotion (infer_scores 220 90 170 50) = Emotion.happy
    rw [infer_scores_tie_eval, dominant_tie_eval]
  · rw [infer_scores_tie_eval]
  · rw [infer_scores_tie_eval]

/-- Witness for C5 at the tie input `(220, 90, 170, 50)` with `e = angry`:
`happy` and `angry` tie, and the position of the returned label in the dict
order is no later than that of `angry`. -/
theorem dominant_emotion_argmax_first_witness :
    ((infer_scores 220 90 170 50).get
        ((infer_emotion_core 220 90 170 50).dominant_emotion) ≤
      (infer_scores 220 90 170 50).get Emotion.angry) ∧
    emotion_order.indexOf ((infer_emotion_core 220 90 170 50).dominant_emotion) ≤
      emotion_order.indexOf Emotion.angry := by
  have htie : (infer_scores 220 90 170 50).get
      ((infer_emotion_core 220 90 170 50).dominant_emotion) ≤
      (infer_scores 220 90 170 50).get Emotion.angry := by
    show (infer_scores 220 90 170 50).get
        (dominant_emotion (infer_scores 220 90 170 50)) ≤
      (infer_scores 220 90 170 50).get Emotion.angry
    rw [infer_scores_tie_eval, dominant_tie_eval]
    norm_num [Scores.get]
  exact ⟨htie, (dominant_emotion_argmax_first 220 90 170 50).2.1 Emotion.angry htie⟩

lemma ite_nonneg (c : Prop) [Decidable c] {a b : ℚ} (ha : 0 ≤ a) (hb : 0 ≤ b) :
    0 ≤ if c then a else b := by
  split <;> assumption

lemma infer_scores_nonneg (mp pr sr ae : ℚ) (e : Emotion) :
    0 ≤ (infer_scores mp pr sr ae).get e := by
  cases e <;>
    simp only [Scores.get, infer_scores_happy, infer_scores_sad,
      infer_scores_angry, infer_scores_calm, infer_scores_neutral] <;>
    repeat'
      first
        | apply add_nonneg
        | (apply ite_nonneg <;> norm_num)
        | norm_num

lemma get_nonneg (s : Scores) (hh : 0 ≤ s.happy) (hs : 0 ≤ s.sad)
    (ha : 0 ≤ s.angry) (hc : 0 ≤ s.calm) (hn : 0 ≤ s.neutral) (e : Emotion) :
    0 ≤ s.get e := by
  cases e <;> simpa [Scores.get]

lemma get_le_total (s : Scores) (hh : 0 ≤ s.happy) (hs : 0 ≤ s.sad)
    (ha : 0 ≤ s.angry) (hc : 0 ≤ s.calm) (hn : 0 ≤ s.neutral) (e : Emotion) :
    s.get e ≤ s.total := by
  cases e <;> simp only [Scores.get, Scores.total] <;> linarith

lemma round_half_even_bounds (q : ℚ) :
    ⌊q⌋ ≤ round_half_even q ∧ round_half_even q ≤ ⌊q⌋ + 1 := by
  unfold round_half_even
  split_ifs <;> omega

lemma round2_bounds {q : ℚ} (h0 : 0 ≤ q) (h1 : q ≤ 1) :
    0 ≤ round2 q ∧ round2 q ≤ 1 := by
  obtain ⟨hlo, hhi⟩ := round_half_even_bounds (100 * q)
  have hfl : (0 : ℤ) ≤ ⌊100 * q⌋ := Int.floor_nonneg.mpr (by linarith)
  have hfloor_le : ((⌊100 * q⌋ : ℤ) : ℚ) ≤ 100 * q := Int.floor_le _
  have hle100 : round_half_even (100 * q) ≤ 100 := by
    unfold round_half_even
    split_ifs with hc1 hc2 hc3
    · have hq : ((⌊100 * q⌋ : ℤ) : ℚ) ≤ 100 := by linarith
      exact_mod_cast hq
    · have hq : ((⌊100 * q⌋ : ℤ) : ℚ) < 100 := by linarith
      have : ⌊100 * q⌋ < 100 := by exact_mod_cast hq
      omega
    · have hq : ((⌊100 * q⌋ : ℤ) : ℚ) ≤ 100 := by linarith
      have : ⌊100 * q⌋ ≤ 100 := by exact_mod_cast hq
      omega
    · have hq : ((⌊100 * q⌋ : ℤ) : ℚ) < 100 := by linarith
      have : ⌊100 * q⌋ < 100 := by exact_mod_cast hq
      omega
  constructor
  · unfold round2
    apply div_nonneg ?_ (by norm_num)
    have h : (0 : ℤ) ≤ round_half_even (100 * q) := le_trans hfl hlo
    exact_mod_cast h
  · unfold round2
    rw [div_le_one (by norm_num : (0 : ℚ) < 100)]
    exact_mod_cast hle100

lemma confidence_of_bounds (s : Scores) (hh : 0 ≤ s.happy) (hs : 0 ≤ s.sad)
    (ha : 0 ≤ s.angry) (hc : 0 ≤ s.calm) (hn : 0 ≤ s.neutral) :
    0 ≤ confidence_of s ∧ confidence_of s ≤ 1 := by
  unfold confidence_of
  have hm0 : 0 ≤ s.get (dominant_emotion s) := get_nonneg s hh hs ha hc hn _
  have hmt : s.get (dominant_emotion s) ≤ s.total := get_le_total s hh hs ha hc hn _
  by_cases ht : s.total = 0
  · rw [if_pos ht]
    have hmz : s.get (dominant_emotion s) = 0 :=
      le_antisymm (by rw [← ht]; exact hmt) hm0
    rw [hmz]
    exact round2_bounds (by norm_num) (by norm_num)
  · rw [if_neg ht]
    have htpos : 0 < s.total :=
      lt_of_le_of_ne (by unfold Scores.total; linarith) (Ne.symm ht)
    exact round2_bounds (div_nonneg hm0 htpos.le) ((div_le_one htpos).mpr hmt)

lemma confidence_of_zero : confidence_of ⟨0, 0, 0, 0, 0⟩ = 0 := by
  norm_num [confidence_of, dominant_emotion, py_max, Scores.get, Scores.total,
    round2, round_half_even]

/-- Claim C6: the classifier confidence is `max_score / Σ scores` rounded
to two decimals, always lies in `[0, 1]`, and on the all-zero score map the
total is treated as 1 and the confidence is exactly 0. -/
theorem confidence_formula_and_bounds (mp pr sr ae : ℚ) :
    0 ≤ (infer_emotion_core mp pr sr ae).confidence ∧
    (infer_emotion_core mp pr sr ae).confidence ≤ 1 ∧
    (infer_emotion_core mp pr sr ae).confidence =
      round2 ((infer_scores mp pr sr ae).get
          (dominant_emotion (infer_scores mp pr sr ae)) /
        (if (infer_scores mp pr sr ae).total = 0 then 1
          else (infer_scores mp pr sr ae).total)) ∧
    confidence_of ⟨0, 0, 0, 0, 0⟩ = 0 := by
  obtain ⟨h0, h1⟩ := confidence_of_bounds (infer_scores mp pr sr ae)
    (infer_scores_nonneg mp pr sr ae Emotion.happy)
    (infer_scores_nonneg mp pr sr ae Emotion.sad)
    (infer_scores_nonneg mp pr sr ae Emotion.angry)
    (infer_scores_nonneg mp pr sr ae Emotion.calm)
    (infer_scores_nonneg mp pr sr ae Emotion.neutral)
  exact ⟨h0, h1, rfl, confidence_of_zero⟩

lemma strong_field_exists (mp pr sr ae : ℚ) :
    ∃ e, 1/2 ≤ (infer_scores mp pr sr ae).get e ∧
      ∃ r, r ∈ rules_triggered mp pr sr ae := by
  rcases lt_or_le mp 130 with h130 | h130
  · refine ⟨Emotion.sad, ?_, "low_mean_pitch", ?_⟩
    · show 1/2 ≤ (infer_scores mp pr sr ae).sad
      rw [infer_scores_sad, if_pos h130]
      have i6 := ite_nonneg (pr < 40) (by norm_num : (0:ℚ) ≤ 1/2) (le_refl (0:ℚ))
      have i7 := ite_nonneg (sr < 110) (by norm_num : (0:ℚ) ≤ 1/2) (le_refl (0:ℚ))
      have i8 := ite_nonneg (ae < 35) (by norm_num : (0:ℚ) ≤ 1/2) (le_refl (0:ℚ))
      linarith
    · unfold rules_triggered
      have h5 : "low_mean_pitch" ∈
          (if mp < 130 then ["low_mean_pitch"] else ([] : List String)) := by
        rw [if_pos h130]; exact List.mem_singleton.mpr rfl
      exact List.mem_append_left _ (List.mem_append_left _ (List.mem_append_left _
        (List.mem_append_left _ (List.mem_append_left _ (List.mem_append_right _ h5)))))
  · rcases le_or_lt mp 200 with h200 | h200
    · rcases lt_or_le pr 40 with h40 | h40
      · refine ⟨Emotion.sad, ?_, "small_pitch_range", ?_⟩
        · show 1/2 ≤ (infer_scores mp pr sr ae).sad
          rw [infer_scores_sad, if_pos h40]
          have i5 := ite_nonneg (mp < 130) (by norm_num : (0:ℚ) ≤ 1) (le_refl (0:ℚ))
          have i7 := ite_nonneg (sr < 110) (by norm_num : (0:ℚ) ≤ 1/2) (le_refl (0:ℚ))
          have i8 := ite_nonneg (ae < 35) (by norm_num : (0:ℚ) ≤ 1/2) (le_refl (0:ℚ))
          linarith
        · unfold rules_triggered
          have h6 : "small_pitch_range" ∈
              (if pr < 40 then ["small_pitch_range"] else ([] : List String)) := by
            rw [if_pos h40]; exact List.mem_singleton.mpr rfl
          exact List.mem_append_left _ (List.mem_append_left _ (List.mem_append_left _
            (List.mem_append_left _ (List.mem_append_right _ h6))))
      · rcases le_or_lt pr 80 with h80 | h80
        · refine ⟨Emotion.neutral, ?_, "mid_pitch_mid_range", ?_⟩
          · show 1/2 ≤ (infer_scores mp pr sr ae).neutral
            rw [infer_scores_neutral, if_pos ⟨h130, h200, h40, h80⟩]
            have i10 := ite_nonneg (110 < sr ∧ sr < 160 ∧ 35 < ae ∧ ae < 45)
              (by norm_num : (0:ℚ) ≤ 1/2) (le_refl (0:ℚ))
            linarith
          · unfold rules_triggered
            have h9 : "mid_pitch_mid_range" ∈
                (if 130 ≤ mp ∧ mp ≤ 200 ∧ 40 ≤ pr ∧ pr ≤ 80 then
                  ["mid_pitch_mid_range"] else ([] : List String)) := by
              rw [if_pos ⟨h130, h200, h40, h80⟩]; exact List.mem_singleton.mpr rfl
            exact List.mem_append_left _ (List.mem_append_right _ h9)
        · refine ⟨Emotion.happy, ?_, "large_pitch_range", ?_⟩
          · show 1/2 ≤ (infer_scores mp pr sr ae).happy
            rw [infer_scores_happy, if_pos h80]
            have i1 := ite_nonneg (200 < mp) (by norm_num : (0:ℚ) ≤ 1) (le_refl (0:ℚ))
            have i3 := ite_nonneg (160 < sr) (by norm_num : (0:ℚ) ≤ 1/2) (le_refl (0:ℚ))
            have i4 := ite_nonneg (45 < ae) (by norm_num : (0:ℚ) ≤ 1/2) (le_refl (0:ℚ))
            linarith
          · unfold rules_triggered
            have h2 : "large_pitch_range" ∈
                (if 80 < pr then ["large_pitch_range"] else ([] : List String)) := by
              rw [if_pos h80]; exact List.mem_singleton.mpr rfl
            exact List.mem_append_left _ (List.mem_append_left _ (List.mem_append_left _
              (List.mem_append_left _ (List.mem_append_left _ (List.mem_append_left _
                (List.mem_append_left _ (List.mem_append_left _
                  (List.mem_append_right _ h2))))))))
    · refine ⟨Emotion.happy, ?_, "high_mean_pitch", ?_⟩
      · show 1/2 ≤ (infer_scores mp pr sr ae).happy
        rw [infer_scores_happy, if_pos h200]
        have i2 := ite_nonneg (80 < pr) (by norm_num : (0:ℚ) ≤ 1) (le_refl (0:ℚ))
        have i3 := ite_nonneg (160 < sr) (by norm_num : (0:ℚ) ≤ 1/2) (le_refl (0:ℚ))
        have i4 := ite_nonneg (45 < ae) (by norm_num : (0:ℚ) ≤ 1/2) (le_refl (0:ℚ))
        linarith
      · unfold rules_triggered
        have h1 : "high_mean_pitch" ∈
            (if 200 < mp then ["high_mean_pitch"] else ([] : List String)) := by
          rw [if_pos h200]; exact List.mem_singleton.mpr rfl
        exact List.mem_append_left _ (List.mem_append_left _ (List.mem_append_left _
          (List.mem_append_left _ (List.mem_append_left _ (List.mem_append_left _
            (List.mem_append_left _ (List.mem_append_left _
              (List.mem_append_left _ h1))))))))

/-- Claim C10 (implicit): for every rational input quadruple at least one
rule fires — the pitch trichotomy combined with the pitch-range trichotomy
covers all inputs — so the total score is at least 1/2, the all-zero
fallback `sum(...) or 1.0` is unreachable (the guarded total equals the
plain total), and the pre-rounding confidence `max_score / total` is
strictly positive. -/
theorem emotion_total_always_positive (mp pr sr ae : ℚ) :
    1/2 ≤ (infer_scores mp pr sr ae).total ∧
    (if (infer_scores mp pr sr ae).total = 0 then (1 : ℚ)
      else (infer_scores mp pr sr ae).total) = (infer_scores mp pr sr ae).total ∧
    0 < (infer_scores mp pr sr ae).get
        (dominant_emotion (infer_scores mp pr sr ae)) /
      (infer_scores mp pr sr ae).total ∧
    0 < (rules_triggered mp pr sr ae).length := by
  obtain ⟨e, he, r, hr⟩ := strong_field_exists mp pr sr ae
  have hh := infer_scores_nonneg mp pr sr ae Emotion.happy
  have hs := infer_scores_nonneg mp pr sr ae Emotion.sad
  have ha := infer_scores_nonneg mp pr sr ae Emotion.angry
  have hc := infer_scores_nonneg mp pr sr ae Emotion.calm
  have hn := infer_scores_nonneg mp pr sr ae Emotion.neutral
  have htot : 1/2 ≤ (infer_scores mp pr sr ae).total :=
    le_trans he (get_le_total _ hh hs ha hc hn e)
  have htpos : 0 < (infer_scores mp pr sr ae).total := by linarith
  have hmax : 1/2 ≤ (infer_scores mp pr sr ae).get
      (dominant_emotion (infer_scores mp pr sr ae)) :=
    le_trans he (dominant_is_max _ e)
  refine ⟨htot, if_neg htpos.ne', div_pos (by linarith) htpos, ?_⟩
  exact List.length_pos.mpr (List.ne_nil_of_mem hr)

/-- Modelled from `VoiceProfile.__init__` plus the fields the engine
mutates; `datetime.now().isoformat()` is passed in explicitly as `now`.
Python `None` sentinels are `none`; `emotion_profile` is initialized to the
empty dict `{}`, modelled as `none`. -/
structure VoiceProfile where
  user_id : String
  user_name : String
  created_date : String
  last_updated : String
  speaking_rate_wpm : Option ℚ
  average_pause_duration : Option ℚ
  mean_pitch : Option ℚ
  pitch_range : Option (ℚ × ℚ)
  emotion_profile : Option EmotionResult
  energy_levels : Option (List ℚ)
  pitch_contour : Option (List ℚ)
deriving DecidableEq, Repr

/-- Modelled from `VoiceProfile(user_id, user_name)` at construction time `now`. -/
def VoiceProfile.init (user_id user_name now : String) : VoiceProfile :=
  { user_id := user_id, user_name := user_name, created_date := now,
    last_updated := now, speaking_rate_wpm := none,
    average_pause_duration := none, mean_pitch := none, pitch_range := none,
    emotion_profile := none, energy_levels := none, pitch_contour := none }

/-- The dict produced by `VoiceProfile.to_dict` and serialized verbatim by
`save_json`/`save_yaml`: identity, timestamps, the nested
`speaking_characteristics` block, and the emotion profile.  Note that
`energy_levels` and `pitch_contour` are not part of the record. -/
structure ProfileRecord where
  user_id : String
  user_name : String
  created_date : String
  last_updated : String
  speaking_rate_wpm : Option ℚ
  average_pause_duration : Option ℚ
  mean_pitch : Option ℚ
  pitch_range : Option (ℚ × ℚ)
  emotion_profile : Option EmotionResult
deriving DecidableEq, Repr

/-- Modelled from `VoiceProfile.to_dict`. -/
def VoiceProfile.to_dict (p : VoiceProfile) : ProfileRecord :=
  { user_id := p.user_id, user_name := p.user_name,
    created_date := p.created_date, last_updated := p.last_updated,
    speaking_rate_wpm := p.speaking_rate_wpm,
    average_pause_duration := p.average_pause_duration,
    mean_pitch := p.mean_pitch, pitch_range := p.pitch_range,
    emotion_profile := p.emotion_profile }

/-- Modelled from `PersonalizationEngine.load_profile` after the JSON/YAML
text has been parsed back into a record (the `json.dump`/`json.load` pair is
modelled as the identity on the record): a fresh `VoiceProfile` is
constructed — its constructor stamps `created_date`/`last_updated` with the
load-time `now` — and then only the four `speaking_characteristics` fields
are copied over from the record. -/
def load_profile (now : String) (data : ProfileRecord) : VoiceProfile :=
  let profile := VoiceProfile.init data.user_id data.user_name now
  { profile with
      speaking_rate_wpm := data.speaking_rate_wpm,
      average_pause_duration := data.average_pause_duration,
      mean_pitch := data.mean_pitch,
      pitch_range := data.pitch_range }

/-- A concrete populated profile used to exhibit the round-trip timestamp
loss. -/
def sample_profile : VoiceProfile :=
  { VoiceProfile.init "user_001" "Test User" "2024-01-01T00:00:00" with
      speaking_rate_wpm := some 150, average_pause_duration := some 1,
      mean_pitch := some 180, pitch_range := some (120, 240),
      energy_levels := some [40, 50], pitch_contour := some [170, 190],
      emotion_profile := some (infer_emotion_core 180 120 150 45) }

/-- Counterexample for C3: the round trip is lossy on more than the three
named fields — `load_profile` rebuilds the profile through the constructor,
which stamps `created_date` with the load time instead of restoring the
saved one. -/
theorem save_load_round_trip_cex :
    (load_profile "2024-06-01T00:00:00" sample_profile.to_dict).created_date =
      "2024-06-01T00:00:00" ∧
    sample_profile.created_date = "2024-01-01T00:00:00" ∧
    (("2024-06-01T00:00:00" : String) == "2024-01-01T00:00:00") = false :=
  ⟨rfl, rfl, rfl⟩

/-- Claim C3 (amended): saving then loading preserves `user_id`,
`user_name`, and the four speaking-characteristics fields exactly;
`emotion_profile` is present in the saved record while `energy_levels` and
`pitch_contour` are not; after reload all three are unpopulated
(`energy_levels = pitch_contour = none`, `emotion_profile` empty); and in
addition `created_date` and `last_updated` are reset to the load time, so
the round trip is lossy on those five fields, not only on the three. -/
theorem save_load_round_trip (p : VoiceProfile) (now : String) :
    (load_profile now p.to_dict).user_id = p.user_id ∧
    (load_profile now p.to_dict).user_name = p.user_name ∧
    (load_profile now p.to_dict).speaking_rate_wpm = p.speaking_rate_wpm ∧
    (load_profile now p.to_dict).average_pause_duration = p.average_pause_duration ∧
    (load_profile now p.to_dict).mean_pitch = p.mean_pitch ∧
    (load_profile now p.to_dict).pitch_range = p.pitch_range ∧
    p.to_dict.emotion_profile = p.emotion_profile ∧
    (load_profile now p.to_dict).energy_levels = none ∧
    (load_profile now p.to_dict).pitch_contour = none ∧
    (load_profile now p.to_dict).emotion_profile = none ∧
    (load_profile now p.to_dict).created_date = now ∧
    (load_profile now p.to_dict).last_updated = now :=
  ⟨rfl, rfl, rfl, rfl, rfl, rfl, rfl, rfl, rfl, rfl, rfl, rfl⟩

/-- Modelled from `np.clip(x, lo, hi)`. -/
def np_clip (x lo hi : ℚ) : ℚ := min (max x lo) hi

/-- Modelled from `PersonalizationEngine._normalize_pitch_for_synthesis`. -/
def normalize_pitch_for_synthesis (mean_pitch : Option ℚ) : ℚ :=
  match mean_pitch with
  | none => 1
  | some mean_pitch => np_clip (mean_pitch / 150) (1/2) 2

/-- Modelled from `PersonalizationEngine._normalize_speed_for_synthesis`. -/
def normalize_speed_for_synthesis (wpm : Option ℚ) : ℚ :=
  match wpm with
  | none => 1
  | some wpm => np_clip (wpm / 150) (1/2) 2

/-- The parameter dict built by `get_synthesis_parameters`. -/
structure SynthesisParams where
  pitch_adjust : ℚ
  speaking_rate_adjust : ℚ
  pause_duration : Option ℚ
  energy_level : ℚ
deriving DecidableEq, Repr

/-- Modelled from `PersonalizationEngine.get_synthesis_parameters`; the
`voice_profiles` dict of the engine is an association list
(`create_voice_profile` prepends, `List.lookup` finds the most recent
binding).  `np.mean(x) if x else 0.5` falls back to `1/2` when
`energy_levels` is `None` or empty. -/
def get_synthesis_parameters (profiles : List (String × VoiceProfile))
    (user_id : String) : Option SynthesisParams :=
  match profiles.lookup user_id with
  | none => none
  | some profile =>
      some { pitch_adjust := normalize_pitch_for_synthesis profile.mean_pitch,
             speaking_rate_adjust :=
               normalize_speed_for_synthesis profile.speaking_rate_wpm,
             pause_duration := profile.average_pause_duration,
             energy_level := match profile.energy_levels with
               | some (x :: xs) => (x :: xs).sum / (((x :: xs).length : ℕ) : ℚ)
               | _ => 1/2 }

/-- Claim C7: the synthesis-parameter mapping is total (for any stored
profile `get_synthesis_parameters` returns a parameter set, never an
exception): `pitch_adjust = clamp(mean_pitch/150, 0.5, 2.0)` with default 1
when `mean_pitch` is absent, monotone non-decreasing in `mean_pitch`, with
`75 ↦ 1/2`, `150 ↦ 1`, `600 ↦ 2`; likewise
`speaking_rate_adjust = clamp(wpm/150, 0.5, 2.0)` with default 1. -/
theorem synthesis_mapping_clamped (p q : ℚ)
    (profiles : List (String × VoiceProfile)) (user_id : String)
    (profile : VoiceProfile) (hpq : p ≤ q)
    (hlook : profiles.lookup user_id = some profile) :
    normalize_pitch_for_synthesis none = 1 ∧
    normalize_speed_for_synthesis none = 1 ∧
    (∀ x : ℚ, normalize_pitch_for_synthesis (some x) = np_clip (x / 150) (1/2) 2) ∧
    (∀ x : ℚ, normalize_speed_for_synthesis (some x) = np_clip (x / 150) (1/2) 2) ∧
    normalize_pitch_for_synthesis (some p) ≤ normalize_pitch_for_synthesis (some q) ∧
    normalize_pitch_for_synthesis (some 75) = 1/2 ∧
    normalize_pitch_for_synthesis (some 150) = 1 ∧
    normalize_pitch_for_synthesis (some 600) = 2 ∧
    ∃ params, get_synthesis_parameters profiles user_id = some params ∧
      params.pitch_adjust = normalize_pitch_for_synthesis profile.mean_pitch ∧
      params.speaking_rate_adjust =
        normalize_speed_for_synthesis profile.speaking_rate_wpm ∧
      params.pause_duration = profile.average_pause_duration := by
  refine ⟨rfl, rfl, fun x => rfl, fun x => rfl, ?_, ?_, ?_, ?_, ?_⟩
  · show np_clip (p / 150) (1/2) 2 ≤ np_clip (q / 150) (1/2) 2
    unfold np_clip
    have hdiv : p / 150 ≤ q / 150 := by linarith
    exact min_le_min (max_le_max hdiv (le_refl _)) (le_refl _)
  · show np_clip ((75 : ℚ) / 150) (1/2) 2 = 1/2
    norm_num [np_clip]
  · show np_clip ((150 : ℚ) / 150) (1/2) 2 = 1
    rw [np_clip]
    norm_num [max_def, min_def]
  · show np_clip ((600 : ℚ) / 150) (1/2) 2 = 2
    rw [np_clip]
    norm_num [max_def, min_def]
  · unfold get_synthesis_parameters
    rw [hlook]
    exact ⟨_, rfl, rfl, rfl, rfl⟩

/-- A concrete stored profile for the C7 witness. -/
def demo_profile : VoiceProfile :=
  { VoiceProfile.init "u1" "Demo" "2024-01-01T00:00:00" with
      speaking_rate_wpm := some 150, average_pause_duration := some 1,
      mean_pitch := some 180, pitch_range := some (120, 240),
      energy_levels := some [40, 50] }

/-- Witness for C7 at `p = 1 ≤ q = 2` and the one-entry profile store
containing `demo_profile` under key `u1`. -/
theorem synthesis_mapping_clamped_witness :
    ((1 : ℚ) ≤ 2) ∧
    ([("u1", demo_profile)].lookup "u1" = some demo_profile) ∧
    (normalize_pitch_for_synthesis (some (1 : ℚ)) ≤
      normalize_pitch_for_synthesis (some (2 : ℚ))) ∧
    normalize_pitch_for_synthesis (some 75) = 1/2 ∧
    ∃ params, get_synthesis_parameters [("u1", demo_profile)] "u1" = some params ∧
      params.pitch_adjust = normalize_pitch_for_synthesis demo_profile.mean_pitch ∧
      params.speaking_rate_adjust =
        normalize_speed_for_synthesis demo_profile.speaking_rate_wpm ∧
      params.pause_duration = demo_profile.average_pause_duration := by
  have h := synthesis_mapping_clamped 1 2 [("u1", demo_profile)] "u1" demo_profile
    (by norm_num) rfl
  exact ⟨by norm_num, rfl, h.2.2.2.2.1, h.2.2.2.2.2.1, h.2.2.2.2.2.2.2.2⟩

/-- Modelled from `f0[voiced_flag]`: numpy boolean-mask indexing, keeping the pitch
values whose flag is true (in order). -/
def voiced_values (f0 : List ℚ) (voiced_flag : List Bool) : List ℚ :=
  ((f0.zip voiced_flag).filter (fun p => p.2)).map (fun p => p.1)

/-- The summary statistics of `extract_pitch` (indices 0, 1, 2 of the
returned tuple).  The standard deviation (index 3) the code also computes
is dropped from the model: it is used nowhere downstream and is a square
root, hence not representable in the exact-rational model. -/
structure PitchStats where
  min_pitch : ℚ
  max_pitch : ℚ
  mean_pitch : ℚ
deriving DecidableEq, Repr

/-- Modelled from `FeatureExtractor.extract_pitch`, as a function of the
`librosa.pyin` outputs `f0` and `voiced_flag` (pyin itself is an external
collaborator).  When the voiced selection is empty the code logs a warning
and returns `None`. -/
def extract_pitch (f0 : List ℚ) (voiced_flag : List Bool) :
    Option (List ℚ × PitchStats) :=
  let f0_voiced := voiced_values f0 voiced_flag
  if f0_voiced.length = 0 then none
  else
    some (f0_voiced,
      { min_pitch := f0_voiced.foldr min (f0_voiced.headD 0),
        max_pitch := f0_voiced.foldr max (f0_voiced.headD 0),
        mean_pitch := f0_voiced.sum / ((f0_voiced.length : ℕ) : ℚ) })

/-- The `SpeakingPatterns` dataclass of `feature_extractor.py`. -/
structure SpeakingPatterns where
  speaking_rate_wpm : ℚ
  average_pause_duration : ℚ
  energy_levels : List ℚ
  pitch_contour : List ℚ
  mean_pitch : ℚ
  pitch_range : ℚ × ℚ
deriving DecidableEq, Repr

/-- Modelled from `FeatureExtractor.extract_all_features`, as a function of
the externally produced energy trace and pyin outputs.  Returns `none` when
pitch extraction finds no voiced frame (the explicit `return None` of the code);
the pause-extraction failure on an empty energy trace also propagates as
`none`.  `np.mean(pauses) if pauses else 0` is the guarded mean. -/
def extract_all_features (sr : ℚ) (n_samples : ℕ) (energy : List ℚ)
    (f0 : List ℚ) (voiced_flag : List Bool) : Option SpeakingPatterns :=
  match extract_pitch f0 voiced_flag with
  | none => none
  | some (pitch_values, stats) =>
      match extract_pauses sr energy 25 with
      | none => none
      | some pauses =>
          some { speaking_rate_wpm := calculate_speaking_rate sr n_samples pauses,
                 average_pause_duration :=
                   if pauses.length = 0 then 0
                   else pauses.sum / ((pauses.length : ℕ) : ℚ),
                 energy_levels := energy,
                 pitch_contour := pitch_values,
                 mean_pitch := stats.mean_pitch,
                 pitch_range := (stats.min_pitch, stats.max_pitch) }

/-- Modelled from the feature-derivation head of `_infer_emotion`:
`profile.mean_pitch or 0.0` (Python `x or 0.0` equals `Option.getD 0`, the
falsy `0.0` maps to `0` either way), the pitch-range span, `or 0.0` for the
rate, and the mean of `energy_levels` when present and non-empty. -/
def infer_emotion (profile : VoiceProfile) : EmotionResult :=
  let mean_pitch := profile.mean_pitch.getD 0
  let pitch_range := match profile.pitch_range with
    | some pr => pr.2 - pr.1
    | none => 0
  let speaking_rate := profile.speaking_rate_wpm.getD 0
  let avg_energy := match profile.energy_levels with
    | some (x :: xs) => (x :: xs).sum / (((x :: xs).length : ℕ) : ℚ)
    | _ => 0
  infer_emotion_core mean_pitch pitch_range speaking_rate avg_energy

/-- Modelled from `PersonalizationEngine.create_voice_profile` after the
audio has been preprocessed and analyzed (`patterns` is the
`extract_all_features` result; audio-load failures propagate as exceptions
outside this model).  On `patterns = None` the function returns `None`
without touching the profile store; otherwise it fills a fresh profile,
attaches the inferred emotion profile, and stores the profile under
`user_id` (dict assignment, modelled by prepending to the association
list). -/
def create_voice_profile (profiles : List (String × VoiceProfile))
    (user_id user_name now : String) (patterns : Option SpeakingPatterns) :
    Option VoiceProfile × List (String × VoiceProfile) :=
  match patterns with
  | none => (none, profiles)
  | some pat =>
      let base := VoiceProfile.init user_id user_name now
      let filled := { base with
        speaking_rate_wpm := some pat.speaking_rate_wpm,
        average_pause_duration := some pat.average_pause_duration,
        mean_pitch := some pat.mean_pitch,
        pitch_range := some pat.pitch_range,
        energy_levels := some pat.energy_levels,
        pitch_contour := some pat.pitch_contour }
      let profile := { filled with emotion_profile := some (infer_emotion filled) }
      (some profile, (user_id, profile) :: profiles)

/-- Claim C9: with zero voiced frames, pitch extraction returns `None`;
whole-feature extraction then returns `None`; and `create_voice_profile`
on a failed extraction returns `None` and leaves the profile store
untouched, so a profile with zero voiced frames is never constructed. -/
theorem no_profile_without_voiced_frames :
    (∀ f0 voiced_flag, voiced_values f0 voiced_flag = [] →
      extract_pitch f0 voiced_flag = none) ∧
    (∀ (sr : ℚ) (n_samples : ℕ) (energy f0 : List ℚ) (voiced_flag : List Bool),
      extract_pitch f0 voiced_flag = none →
      extract_all_features sr n_samples energy f0 voiced_flag = none) ∧
    (∀ (profiles : List (String × VoiceProfile)) (user_id user_name now : String),
      create_voice_profile profiles user_id user_name now none = (none, profiles)) := by
  refine ⟨?_, ?_, ?_⟩
  · intro f0 vf h
    unfold extract_pitch
    rw [h]
    rfl
  · intro sr ns energy f0 vf h
    unfold extract_all_features
    rw [h]
  · intro profiles uid uname now
    rfl

/-- Witness for C9 at `f0 = [100]`, all-unvoiced mask `[false]`. -/
theorem no_profile_without_voiced_frames_witness :
    voiced_values [100] [false] = [] ∧
    extract_pitch ([100] : List ℚ) [false] = none ∧
    extract_all_features 22050 1000 [1, 2] [100] [false] = none ∧
    create_voice_profile [] "u" "n" "t" none = (none, []) := by
  have h := no_profile_without_voiced_frames
  have h1 : voiced_values [100] [false] = ([] : List ℚ) := rfl
  exact ⟨h1, h.1 _ _ h1, h.2.1 22050 1000 [1, 2] _ _ (h.1 _ _ h1),
    h.2.2 [] "u" "n" "t"⟩

end TTS
